import Mathlib

set_option maxHeartbeats 1000000

/-!
Verification of the document-processing service (text normalizer, chunked
summarizer, upload routes).  Strings are embedded as `List Char`; file bytes
as `List Nat`; the external summarization model, the PDF page extractor and
the docx parser are black-box function parameters.  Each `def` below embeds
one Python function of the repository; the source file and lines are named
in its doc comment.
-/

/-- The ASCII members of Python's `\s` regex class and of `str.isspace`
(space, tab, newline, carriage return, vertical tab, form feed). -/
def isPyWs (c : Char) : Bool :=
  c == ' ' || c == '\t' || c == '\n' || c == '\r' || c == '\x0b' || c == '\x0c'

/-- The punctuation class `[.,!?]` of `app/utils/text.py` line 7. -/
def isPunct (c : Char) : Bool :=
  c == '.' || c == ',' || c == '!' || c == '?'

/-- `re.sub(r"\s+", " ", text)` (`app/utils/text.py` line 6): every maximal
whitespace run is replaced by a single space.  The Boolean flag records
whether the previous character was whitespace, i.e. whether a run is
already open (its single space already emitted). -/
def collapseA : Bool → List Char → List Char
  | _, [] => []
  | prevWs, c :: rest =>
    if isPyWs c then
      if prevWs then collapseA true rest else ' ' :: collapseA true rest
    else c :: collapseA false rest

/-- `re.sub(r"\s+", " ", text)` on a whole string (no run already open). -/
def collapseWs (l : List Char) : List Char := collapseA false l

/-- Left half of Python `str.strip()`. -/
def lstrip (l : List Char) : List Char := l.dropWhile isPyWs

/-- Right half of Python `str.strip()`. -/
def rstrip (l : List Char) : List Char := (l.reverse.dropWhile isPyWs).reverse

/-- Python `str.strip()`: drop leading and trailing whitespace. -/
def pyStrip (l : List Char) : List Char := rstrip (lstrip l)

/-- `re.sub(r"\s+([.,!?])", r"\1", text)` (`app/utils/text.py` line 7):
delete every whitespace run that immediately precedes one of `. , ! ?`.
`pending` buffers the whitespace run seen so far but not yet emitted: on a
punctuation character the pending run is dropped (the regex match is
replaced by the punctuation character alone), on any other character the
pending run is flushed unchanged. -/
def subWsAux (pending : List Char) : List Char → List Char
  | [] => pending
  | c :: rest =>
    if isPyWs c then subWsAux (pending ++ [c]) rest
    else if isPunct c && !pending.isEmpty then c :: subWsAux [] rest
    else pending ++ c :: subWsAux [] rest

/-- `re.sub(r"\s+([.,!?])", r"\1", text)` on a whole string. -/
def subWsPunct (l : List Char) : List Char := subWsAux [] l

/-- `clean_text` of `app/utils/text.py` lines 4-8 (identical to the copy in
`src/main.py` lines 69-73): collapse whitespace runs, strip, then delete
whitespace before punctuation. -/
def clean_text (l : List Char) : List Char := subWsPunct (pyStrip (collapseWs l))

/-- The first character, if any, is not whitespace. -/
def headOk (l : List Char) : Bool :=
  match l with
  | [] => true
  | c :: _ => !isPyWs c

/-- The last character, if any, is not whitespace. -/
def lastOk (l : List Char) : Bool := headOk l.reverse

/-- Every adjacent pair of characters satisfies `R`. -/
def chainB (R : Char → Char → Bool) : List Char → Bool
  | [] => true
  | [_] => true
  | a :: b :: rest => R a b && chainB R (b :: rest)

/-- No two adjacent whitespace characters. -/
def noWsWs (a b : Char) : Bool := !(isPyWs a && isPyWs b)

/-- No whitespace character immediately before `. , ! ?`. -/
def noWsPunct (a b : Char) : Bool := !(isPyWs a && isPunct b)

/-- Adjacency invariant of `clean_text` output: after a whitespace
character comes neither whitespace nor punctuation. -/
def wsOkRel (a b : Char) : Bool := !isPyWs a || (!isPyWs b && !isPunct b)

/-- All whitespace characters of `l` are plain spaces. -/
def allWsSpace (l : List Char) : Prop := ∀ c ∈ l, isPyWs c = true → c = ' '

theorem chainB_cons (R : Char → Char → Bool) (a : Char) (l : List Char) :
    chainB R (a :: l) = ((match l with | [] => true | b :: _ => R a b) && chainB R l) := by
  cases l <;> simp [chainB]

theorem chainB_tail {R : Char → Char → Bool} {a : Char} {l : List Char}
    (h : chainB R (a :: l) = true) : chainB R l = true := by
  rw [chainB_cons, Bool.and_eq_true] at h
  exact h.2

theorem chainB_imp {R S : Char → Char → Bool}
    (hRS : ∀ a b, R a b = true → S a b = true) :
    ∀ {l : List Char}, chainB R l = true → chainB S l = true
  | [], _ => rfl
  | [_], _ => rfl
  | a :: b :: rest, h => by
    simp only [chainB, Bool.and_eq_true] at h ⊢
    exact ⟨hRS a b h.1, chainB_imp hRS h.2⟩

theorem chainB_append_left {R : Char → Char → Bool} :
    ∀ {l t : List Char}, chainB R (l ++ t) = true → chainB R l = true
  | [], _, _ => rfl
  | [_], _, _ => rfl
  | a :: b :: rest, t, h => by
    simp only [List.cons_append, chainB, Bool.and_eq_true] at h ⊢
    exact ⟨h.1, chainB_append_left (t := t) h.2⟩

theorem chainB_dropWhile {R : Char → Char → Bool} (p : Char → Bool) :
    ∀ {l : List Char}, chainB R l = true → chainB R (l.dropWhile p) = true
  | [], _ => rfl
  | a :: rest, h => by
    rw [List.dropWhile_cons]
    by_cases hp : p a = true
    · simp only [hp, if_true]
      exact chainB_dropWhile p (chainB_tail h)
    · simp only [hp, if_false]
      exact h

theorem collapseA_allWsSpace (b : Bool) (l : List Char) : allWsSpace (collapseA b l) := by
  induction l generalizing b with
  | nil => intro x hx _; simp [collapseA] at hx
  | cons c rest ih =>
    intro x hx hxws
    cases hc : isPyWs c with
    | false =>
      simp only [collapseA, hc] at hx
      simp only [Bool.false_eq_true, if_false] at hx
      rcases List.mem_cons.mp hx with h | h
      · subst h; rw [hc] at hxws; cases hxws
      · exact ih false x h hxws
    | true =>
      cases b with
      | false =>
        simp only [collapseA, hc, if_true] at hx
        simp only [Bool.false_eq_true, if_false] at hx
        rcases List.mem_cons.mp hx with h | h
        · exact h
        · exact ih true x h hxws
      | true =>
        simp only [collapseA, hc, if_true] at hx
        exact ih true x hx hxws

theorem collapseA_true_headOk (l : List Char) : headOk (collapseA true l) = true := by
  induction l with
  | nil => rfl
  | cons c rest ih =>
    cases hc : isPyWs c with
    | false => simp [collapseA, hc, headOk]
    | true => simp only [collapseA, hc, if_true]; exact ih

theorem collapseA_chain (b : Bool) (l : List Char) :
    chainB noWsWs (collapseA b l) = true := by
  induction l generalizing b with
  | nil => rfl
  | cons c rest ih =>
    cases hc : isPyWs c with
    | false =>
      simp only [collapseA, hc, Bool.false_eq_true, if_false]
      rw [chainB_cons, Bool.and_eq_true]
      refine ⟨?_, ih false⟩
      cases hh : collapseA false rest with
      | nil => rfl
      | cons d tl => simp [noWsWs, hc]
    | true =>
      cases b with
      | true => simp only [collapseA, hc, if_true]; exact ih true
      | false =>
        simp only [collapseA, hc, if_true, Bool.false_eq_true, if_false]
        rw [chainB_cons, Bool.and_eq_true]
        refine ⟨?_, ih true⟩
        cases hh : collapseA true rest with
        | nil => rfl
        | cons d tl =>
          have hd := collapseA_true_headOk rest
          rw [hh] at hd
          simp only [headOk] at hd
          simp [noWsWs, hd]

theorem collapseA_fix (l : List Char) (hws : allWsSpace l)
    (hch : chainB noWsWs l = true) :
    collapseA false l = l ∧ (headOk l = true → collapseA true l = l) := by
  induction l with
  | nil => exact ⟨rfl, fun _ => rfl⟩
  | cons c rest ih =>
    have hwrest : allWsSpace rest := fun x hx => hws x (List.mem_cons_of_mem c hx)
    have hcrest : chainB noWsWs rest = true := chainB_tail hch
    rcases ih hwrest hcrest with ⟨ihf, iht⟩
    cases hc : isPyWs c with
    | false =>
      constructor
      · simp only [collapseA, hc, Bool.false_eq_true, if_false, ihf]
      · intro _; simp only [collapseA, hc, Bool.false_eq_true, if_false, ihf]
    | true =>
      have hcsp : c = ' ' := hws c (List.mem_cons_self c rest) hc
      have hrestHead : headOk rest = true := by
        rw [chainB_cons, Bool.and_eq_true] at hch
        cases rest with
        | nil => rfl
        | cons d tl =>
          have h1 := hch.1
          simp only [noWsWs, hc, Bool.true_and, Bool.not_eq_true'] at h1
          simp [headOk, h1]
      constructor
      · simp only [collapseA, hc, if_true, Bool.false_eq_true, if_false]
        rw [iht hrestHead, hcsp]
      · intro hhead
        simp only [headOk, hc] at hhead
        cases hhead

theorem dropWhile_headOk (m : List Char) : headOk (m.dropWhile isPyWs) = true := by
  induction m with
  | nil => rfl
  | cons c rest ih =>
    rw [List.dropWhile_cons]
    cases hc : isPyWs c with
    | false => simp [headOk, hc]
    | true => simp only [hc, if_true]; exact ih

theorem lstrip_headOk (l : List Char) : headOk (lstrip l) = true :=
  dropWhile_headOk l

theorem rstrip_append (l : List Char) :
    rstrip l ++ (l.reverse.takeWhile isPyWs).reverse = l := by
  have h := List.takeWhile_append_dropWhile isPyWs l.reverse
  have h2 := congrArg List.reverse h
  rw [List.reverse_append, List.reverse_reverse] at h2
  exact h2

theorem rstrip_lastOk (l : List Char) : lastOk (rstrip l) = true := by
  unfold lastOk rstrip
  rw [List.reverse_reverse]
  exact dropWhile_headOk l.reverse

theorem rstrip_headOk (l : List Char) (h : headOk l = true) :
    headOk (rstrip l) = true := by
  have happ := rstrip_append l
  cases hr : rstrip l with
  | nil => rfl
  | cons c r =>
    rw [hr, List.cons_append] at happ
    rw [← happ] at h
    exact h

theorem rstrip_mem {x : Char} {l : List Char} (h : x ∈ rstrip l) : x ∈ l := by
  have happ := rstrip_append l
  rw [← happ]
  exact List.mem_append_left _ h

theorem rstrip_chain {R : Char → Char → Bool} {l : List Char}
    (h : chainB R l = true) : chainB R (rstrip l) = true := by
  have happ := rstrip_append l
  rw [← happ] at h
  exact chainB_append_left h

theorem lstrip_fix {l : List Char} (h : headOk l = true) : lstrip l = l := by
  cases l with
  | nil => rfl
  | cons c rest =>
    simp only [headOk, Bool.not_eq_true'] at h
    simp [lstrip, List.dropWhile_cons, h]

theorem rstrip_fix {l : List Char} (h : lastOk l = true) : rstrip l = l := by
  unfold lastOk at h
  unfold rstrip
  have hfix : List.dropWhile isPyWs l.reverse = l.reverse := lstrip_fix h
  rw [hfix, List.reverse_reverse]

theorem pyStrip_allWsSpace {l : List Char} (h : allWsSpace l) :
    allWsSpace (pyStrip l) := by
  intro x hx hxws
  refine h x ?_ hxws
  have h1 : x ∈ lstrip l := rstrip_mem hx
  exact (List.dropWhile_sublist isPyWs).subset h1

theorem pyStrip_chain {R : Char → Char → Bool} {l : List Char}
    (h : chainB R l = true) : chainB R (pyStrip l) = true :=
  rstrip_chain (chainB_dropWhile isPyWs h)

theorem pyStrip_headOk (l : List Char) : headOk (pyStrip l) = true :=
  rstrip_headOk _ (lstrip_headOk l)

theorem pyStrip_lastOk (l : List Char) : lastOk (pyStrip l) = true :=
  rstrip_lastOk _

theorem lastOk_cons_ne {x : Char} {xs : List Char} (hxs : xs ≠ []) :
    lastOk (x :: xs) = lastOk xs := by
  cases hr : xs.reverse with
  | nil => exact absurd (List.reverse_eq_nil_iff.mp hr) hxs
  | cons d tl =>
    unfold lastOk
    rw [List.reverse_cons, hr, List.cons_append]
    simp [headOk]

theorem lastOk_singleton (x : Char) : lastOk [x] = !isPyWs x := rfl

theorem subWsAux_pending_ne : ∀ (l pending : List Char), pending ≠ [] →
    subWsAux pending l ≠ []
  | [], pending, hp => hp
  | c :: rest, pending, hp => by
    simp only [subWsAux]
    cases hc : isPyWs c with
    | true =>
      simp only [if_true]
      exact subWsAux_pending_ne rest (pending ++ [c]) (by simp)
    | false =>
      simp only [Bool.false_eq_true, if_false]
      cases hpc : (isPunct c && !pending.isEmpty) with
      | true => simp
      | false =>
        simp only [Bool.false_eq_true, if_false]
        cases pending with
        | nil => exact absurd rfl hp
        | cons q qs => simp

theorem subWs_nonnil (c : Char) (rest : List Char) : subWsPunct (c :: rest) ≠ [] := by
  unfold subWsPunct
  simp only [subWsAux]
  cases hc : isPyWs c with
  | true =>
    simp only [if_true, List.nil_append]
    exact subWsAux_pending_ne rest [c] (by simp)
  | false =>
    simp only [Bool.false_eq_true, if_false, List.isEmpty_nil, Bool.not_true,
      Bool.and_false, List.nil_append]
    simp

theorem subWs_headOk {l : List Char} (h : headOk l = true) :
    headOk (subWsPunct l) = true := by
  cases l with
  | nil => rfl
  | cons c rest =>
    simp only [headOk, Bool.not_eq_true'] at h
    unfold subWsPunct
    simp only [subWsAux, h, Bool.false_eq_true, if_false, List.isEmpty_nil,
      Bool.not_true, Bool.and_false, List.nil_append]
    simp [headOk, h]

theorem subWsAux_cons (pending : List Char) (c : Char) (rest : List Char) :
    subWsAux pending (c :: rest) =
      if isPyWs c then subWsAux (pending ++ [c]) rest
      else if isPunct c && !pending.isEmpty then c :: subWsAux [] rest
      else pending ++ c :: subWsAux [] rest := rfl

theorem subWsPunct_cons_nonws {c : Char} (rest : List Char) (hc : isPyWs c = false) :
    subWsPunct (c :: rest) = c :: subWsPunct rest := by
  unfold subWsPunct
  rw [subWsAux_cons, if_neg (by simp [hc])]
  simp

theorem subWsPunct_ws_cons (c p : Char) (rest2 : List Char)
    (hc : isPyWs c = true) (hp : isPyWs p = false) :
    subWsPunct (c :: p :: rest2) =
      (if isPunct p then p :: subWsPunct rest2 else c :: p :: subWsPunct rest2) := by
  unfold subWsPunct
  rw [subWsAux_cons, if_pos hc, List.nil_append, subWsAux_cons, if_neg (by simp [hp])]
  cases hpp : isPunct p <;> simp [hpp]

theorem lastOk_tail {x : Char} {xs : List Char} (h : lastOk (x :: xs) = true) :
    lastOk xs = true := by
  cases xs with
  | nil => rfl
  | cons y ys => rw [← lastOk_cons_ne (by simp : (y :: ys : List Char) ≠ [])]; exact h

theorem subWs_good : ∀ (l : List Char), allWsSpace l → chainB noWsWs l = true →
    lastOk l = true →
    allWsSpace (subWsPunct l) ∧ chainB wsOkRel (subWsPunct l) = true ∧
      lastOk (subWsPunct l) = true
  | [], _, _, _ => ⟨fun x hx => absurd hx (List.not_mem_nil x), rfl, rfl⟩
  | [c], _, _, hl => by
    have hc : isPyWs c = false := by
      rw [lastOk_singleton, Bool.not_eq_true'] at hl
      exact hl
    rw [subWsPunct_cons_nonws [] hc]
    refine ⟨?_, rfl, ?_⟩
    · intro x hx hxws
      rcases List.mem_cons.mp hx with h | h
      · subst h; rw [hc] at hxws; cases hxws
      · simp [subWsPunct, subWsAux] at h
    · show lastOk [c] = true
      rw [lastOk_singleton, hc]
      rfl
  | c :: p :: rest2, hws, hch, hl => by
    have hrest_ne : (p :: rest2) ≠ ([] : List Char) := by simp
    have hl1 : lastOk (p :: rest2) = true := by
      rw [lastOk_cons_ne hrest_ne] at hl; exact hl
    have hch1 : chainB noWsWs (p :: rest2) = true := chainB_tail hch
    have hws1 : allWsSpace (p :: rest2) := fun x hx => hws x (List.mem_cons_of_mem c hx)
    cases hc : isPyWs c with
    | false =>
      obtain ⟨g1, g2, g3⟩ := subWs_good (p :: rest2) hws1 hch1 hl1
      rw [subWsPunct_cons_nonws (p :: rest2) hc]
      have hne : subWsPunct (p :: rest2) ≠ [] := subWs_nonnil p rest2
      refine ⟨?_, ?_, ?_⟩
      · intro x hx hxws
        rcases List.mem_cons.mp hx with h | h
        · subst h; rw [hc] at hxws; cases hxws
        · exact g1 x h hxws
      · rw [chainB_cons, Bool.and_eq_true]
        refine ⟨?_, g2⟩
        cases subWsPunct (p :: rest2) with
        | nil => rfl
        | cons d tl => simp [wsOkRel, hc]
      · rw [lastOk_cons_ne hne]
        exact g3
    | true =>
      have hp : isPyWs p = false := by
        rw [chainB_cons, Bool.and_eq_true] at hch
        have hnw : noWsWs c p = true := hch.1
        rw [noWsWs, hc, Bool.true_and, Bool.not_eq_true'] at hnw
        exact hnw
      have hcsp : c = ' ' := hws c (List.mem_cons_self c (p :: rest2)) hc
      have hws2 : allWsSpace rest2 := fun x hx => hws1 x (List.mem_cons_of_mem p hx)
      have hch2 : chainB noWsWs rest2 = true := chainB_tail hch1
      have hl2 : lastOk rest2 = true := lastOk_tail hl1
      obtain ⟨g1, g2, g3⟩ := subWs_good rest2 hws2 hch2 hl2
      rw [subWsPunct_ws_cons c p rest2 hc hp]
      by_cases hpp : isPunct p = true
      · rw [if_pos hpp]
        refine ⟨?_, ?_, ?_⟩
        · intro x hx hxws
          rcases List.mem_cons.mp hx with h | h
          · subst h; rw [hp] at hxws; cases hxws
          · exact g1 x h hxws
        · rw [chainB_cons, Bool.and_eq_true]
          refine ⟨?_, g2⟩
          cases subWsPunct rest2 with
          | nil => rfl
          | cons d tl => simp [wsOkRel, hp]
        · cases hr3 : subWsPunct rest2 with
          | nil => rw [lastOk_singleton, hp]; rfl
          | cons d tl =>
            rw [lastOk_cons_ne (by simp)]
            rw [← hr3]
            exact g3
      · rw [Bool.not_eq_true] at hpp
        rw [if_neg (by simp [hpp])]
        refine ⟨?_, ?_, ?_⟩
        · intro x hx hxws
          rcases List.mem_cons.mp hx with h | h
          · subst h; exact hcsp
          · rcases List.mem_cons.mp h with h2 | h2
            · subst h2; rw [hp] at hxws; cases hxws
            · exact g1 x h2 hxws
        · rw [chainB_cons, Bool.and_eq_true]
          constructor
          · simp [wsOkRel, hp, hpp]
          · rw [chainB_cons, Bool.and_eq_true]
            refine ⟨?_, g2⟩
            cases subWsPunct rest2 with
            | nil => rfl
            | cons d tl => simp [wsOkRel, hp]
        · rw [lastOk_cons_ne (by simp)]
          cases hr3 : subWsPunct rest2 with
          | nil => rw [lastOk_singleton, hp]; rfl
          | cons d tl =>
            rw [lastOk_cons_ne (by simp)]
            rw [← hr3]
            exact g3

theorem subWs_fix : ∀ (l : List Char), chainB wsOkRel l = true → subWsPunct l = l
  | [], _ => rfl
  | [c], _ => by
    cases hc : isPyWs c with
    | false =>
      rw [subWsPunct_cons_nonws [] hc]
      rfl
    | true =>
      unfold subWsPunct
      rw [subWsAux_cons, if_pos hc, List.nil_append]
      rfl
  | c :: p :: rest2, hch => by
    cases hc : isPyWs c with
    | false =>
      rw [subWsPunct_cons_nonws (p :: rest2) hc,
        subWs_fix (p :: rest2) (chainB_tail hch)]
    | true =>
      have hcp : wsOkRel c p = true := by
        rw [chainB_cons, Bool.and_eq_true] at hch
        exact hch.1
      rw [wsOkRel, hc, Bool.not_true, Bool.false_or, Bool.and_eq_true,
        Bool.not_eq_true', Bool.not_eq_true'] at hcp
      rw [subWsPunct_ws_cons c p rest2 hc hcp.1, if_neg (by simp [hcp.2]),
        subWs_fix rest2 (chainB_tail (chainB_tail hch))]

theorem wsOkRel_noWsWs (a b : Char) (h : wsOkRel a b = true) : noWsWs a b = true := by
  unfold wsOkRel at h
  unfold noWsWs
  cases ha : isPyWs a with
  | false => simp
  | true =>
    rw [ha, Bool.not_true, Bool.false_or, Bool.and_eq_true, Bool.not_eq_true'] at h
    simp [h.1]

theorem wsOkRel_noWsPunct (a b : Char) (h : wsOkRel a b = true) :
    noWsPunct a b = true := by
  unfold wsOkRel at h
  unfold noWsPunct
  cases ha : isPyWs a with
  | false => simp
  | true =>
    rw [ha, Bool.not_true, Bool.false_or, Bool.and_eq_true] at h
    rw [Bool.not_eq_true'] at h
    simp [h.2]

theorem clean_text_good (l : List Char) :
    allWsSpace (clean_text l) ∧ chainB wsOkRel (clean_text l) = true ∧
      headOk (clean_text l) = true ∧ lastOk (clean_text l) = true := by
  have h1 : allWsSpace (collapseA false l) := collapseA_allWsSpace false l
  have h2 : chainB noWsWs (collapseA false l) = true := collapseA_chain false l
  have h3 : allWsSpace (pyStrip (collapseA false l)) := pyStrip_allWsSpace h1
  have h4 : chainB noWsWs (pyStrip (collapseA false l)) = true := pyStrip_chain h2
  have h5 : headOk (pyStrip (collapseA false l)) = true := pyStrip_headOk _
  have h6 : lastOk (pyStrip (collapseA false l)) = true := pyStrip_lastOk _
  obtain ⟨g1, g2, g3⟩ := subWs_good _ h3 h4 h6
  exact ⟨g1, g2, subWs_headOk h5, g3⟩

/-- C3: `clean_text` (`app/utils/text.py` lines 4-8) is idempotent: cleaning
an already-cleaned string returns it unchanged, and the empty string maps
to the empty string rather than an error. -/
theorem C3_clean_text_idempotent : ∀ s : List Char,
    clean_text (clean_text s) = clean_text s ∧ clean_text ([] : List Char) = [] := by
  intro s
  refine ⟨?_, rfl⟩
  obtain ⟨g1, g2, g3, g4⟩ := clean_text_good s
  have e1 : collapseA false (clean_text s) = clean_text s :=
    (collapseA_fix (clean_text s) g1 (chainB_imp wsOkRel_noWsWs g2)).1
  have e2 : pyStrip (clean_text s) = clean_text s := by
    unfold pyStrip
    have el : lstrip (clean_text s) = clean_text s := lstrip_fix g3
    rw [el]
    exact rstrip_fix g4
  show subWsPunct (pyStrip (collapseA false (clean_text s))) = clean_text s
  rw [e1, e2]
  exact subWs_fix _ g2

/-- C4: for every input, the output of `clean_text` has no two adjacent
whitespace characters and no whitespace immediately before `. , ! ?`;
on the spec's example, `clean_text "Hello   world !" = "Hello world!"`. -/
theorem C4_clean_text_normal_form : ∀ s : List Char,
    chainB noWsWs (clean_text s) = true ∧ chainB noWsPunct (clean_text s) = true
      ∧ clean_text ("Hello   world !".data) = "Hello world!".data := by
  intro s
  obtain ⟨-, g2, -, -⟩ := clean_text_good s
  exact ⟨chainB_imp wsOkRel_noWsWs g2, chainB_imp wsOkRel_noWsPunct g2, by decide⟩

/-- Python `range(start, stop, step)` for a positive step: the arithmetic
progression of `ceil((stop - start) / step)` terms starting at `start`
(Python's documented length formula). -/
def rangeStep (start stop step : Nat) : List Nat :=
  (List.range ((stop - start + step - 1) / step)).map (fun k => start + k * step)

/-- The chunk list of `generate_summary` (`app/services/summarizer.py`
lines 10-14): `text[i : i + 1024] for i in range(0, len(text), 1024)`,
with the Python slice `text[i : i + n]` embedded as `(text.drop i).take n`. -/
def gsChunks (text : List Char) : List (List Char) :=
  (rangeStep 0 text.length 1024).map (fun i => (text.drop i).take 1024)

/-- Python `" ".join(...)`. -/
def joinSpace (ls : List (List Char)) : List Char := List.intercalate [' '] ls

/-- State-machine word counter: the flag records whether the previous
character was part of a word (a non-whitespace run already counted). -/
def cwAux : Bool → List Char → Nat
  | _, [] => 0
  | inWord, c :: rest =>
    if isPyWs c then cwAux false rest
    else (if inWord then 0 else 1) + cwAux true rest

/-- `len(chunk.split())` (`app/services/summarizer.py` line 19): Python
`str.split()` with no argument splits on whitespace runs and discards
empties, so its length is the number of maximal non-whitespace runs. -/
def countWords (l : List Char) : Nat := cwAux false l

/-- `Summarizer.generate_summary` of `app/services/summarizer.py` lines
8-21 (identical to `generate_summary` in `src/main.py` lines 90-97): slice
the text into 1024-character chunks, keep the chunks with at least 50
whitespace-delimited words, summarize each kept chunk with the black-box
`model`, and join the summaries with single spaces in chunk order. -/
def generate_summary (model : List Char → List Char) (text : List Char) : List Char :=
  joinSpace (((gsChunks text).filter (fun chunk => 50 ≤ countWords chunk)).map model)

/-- Chunking as the spec's §4.2 words it (spec-side definition, used only to
state the refinement claim C1): repeatedly split off the first 1024
characters until the text is exhausted. -/
def specChunks : List Char → List (List Char)
  | [] => []
  | c :: rest => ((c :: rest).take 1024) :: specChunks ((c :: rest).drop 1024)
termination_by l => l.length
decreasing_by simp only [List.length_drop, List.length_cons]; omega

theorem chunkCount_succ {L : Nat} (hL : 0 < L) :
    (L + 1024 - 1) / 1024 = (L - 1024 + 1024 - 1) / 1024 + 1 := by
  have h1 : L + 1024 - 1 = (L - 1) + 1024 := by omega
  rw [h1, Nat.add_div_right _ (by omega : 0 < 1024)]
  by_cases h : L ≤ 1024
  · have h2 : L - 1024 + 1024 - 1 = 1023 := by omega
    have h3 : L - 1 < 1024 := by omega
    rw [h2, Nat.div_eq_of_lt h3, Nat.div_eq_of_lt (by omega : (1023 : Nat) < 1024)]
  · have h2 : L - 1024 + 1024 - 1 = L - 1 := by omega
    rw [h2]

theorem gsChunks_cons (l : List Char) (hl : l ≠ []) :
    gsChunks l = l.take 1024 :: gsChunks (l.drop 1024) := by
  have hlen : 0 < l.length := List.length_pos.mpr hl
  unfold gsChunks rangeStep
  rw [List.length_drop, Nat.sub_zero, Nat.sub_zero, chunkCount_succ hlen,
    List.range_succ_eq_map, List.map_cons, List.map_cons]
  refine congrArg₂ List.cons ?_ ?_
  · simp
  · simp only [List.map_map]
    refine List.map_congr_left ?_
    intro k _
    simp only [Function.comp_apply]
    simp only [List.drop_drop]
    have hidx : 0 + Nat.succ k * 1024 = 1024 + (0 + k * 1024) := by omega
    rw [hidx]

theorem gsChunks_flatten : ∀ l : List Char, (gsChunks l).flatten = l
  | [] => rfl
  | c :: rest => by
    rw [gsChunks_cons (c :: rest) (by simp), List.flatten_cons,
      gsChunks_flatten ((c :: rest).drop 1024)]
    exact List.take_append_drop 1024 (c :: rest)
termination_by l => l.length
decreasing_by simp only [List.length_drop, List.length_cons]; omega

theorem gsChunks_length : ∀ l : List Char,
    (gsChunks l).length = (l.length + 1024 - 1) / 1024
  | [] => rfl
  | c :: rest => by
    rw [gsChunks_cons (c :: rest) (by simp), List.length_cons,
      gsChunks_length ((c :: rest).drop 1024), List.length_drop]
    exact (chunkCount_succ (by simp)).symm
termination_by l => l.length
decreasing_by simp only [List.length_drop, List.length_cons]; omega

theorem gsChunks_dropLast : ∀ (l : List Char), ∀ ch ∈ (gsChunks l).dropLast,
    ch.length = 1024
  | [], ch, h => by simp [gsChunks, rangeStep] at h
  | c :: rest, ch, h => by
    rw [gsChunks_cons (c :: rest) (by simp)] at h
    cases hg : gsChunks ((c :: rest).drop 1024) with
    | nil => rw [hg] at h; simp at h
    | cons d tl =>
      rw [hg, List.dropLast_cons₂] at h
      rcases List.mem_cons.mp h with h1 | h1
      · subst h1
        have hdrop : (c :: rest).drop 1024 ≠ [] := by
          intro hnil
          rw [hnil] at hg
          simp [gsChunks, rangeStep] at hg
        have hlen : 1024 < (c :: rest).length := by
          by_contra hle
          exact hdrop (List.drop_eq_nil_of_le (by omega))
        rw [List.length_take]
        omega
      · rw [← hg] at h1
        exact gsChunks_dropLast ((c :: rest).drop 1024) ch h1
termination_by l => l.length
decreasing_by simp only [List.length_drop, List.length_cons]; omega

/-- C2: the chunking step of `generate_summary` with chunk size 1024
produces exactly `ceil(L / 1024)` chunks, every chunk except possibly the
last has exactly 1024 characters, and concatenating the chunks in order
reconstructs the input text. -/
theorem C2_chunking : ∀ text : List Char,
    (gsChunks text).length = (text.length + 1024 - 1) / 1024
    ∧ (∀ ch ∈ (gsChunks text).dropLast, ch.length = 1024)
    ∧ (gsChunks text).flatten = text :=
  fun text => ⟨gsChunks_length text, gsChunks_dropLast text, gsChunks_flatten text⟩

theorem specChunks_nil : specChunks [] = [] := by
  rw [specChunks]

theorem specChunks_cons (c : Char) (rest : List Char) :
    specChunks (c :: rest) =
      ((c :: rest).take 1024) :: specChunks ((c :: rest).drop 1024) := by
  rw [specChunks]

theorem specChunks_eq : ∀ l : List Char, gsChunks l = specChunks l
  | [] => by rw [specChunks_nil]; rfl
  | c :: rest => by
    rw [gsChunks_cons (c :: rest) (by simp),
      specChunks_eq ((c :: rest).drop 1024), specChunks_cons]
termination_by l => l.length
decreasing_by simp only [List.length_drop, List.length_cons]; omega

/-- C1: for every text and every black-box per-chunk summarization
function, `generate_summary` equals the spec's description: split into
fixed-offset chunks, drop every chunk with fewer than 50
whitespace-delimited words entirely, summarize each retained chunk, and
join the summaries with single spaces in original chunk order. -/
theorem C1_generate_summary_refines_spec :
    ∀ (model : List Char → List Char) (text : List Char),
      generate_summary model text =
        joinSpace (((specChunks text).filter
          (fun chunk => 50 ≤ countWords chunk)).map model) := by
  intro model text
  unfold generate_summary
  rw [specChunks_eq]

/-- Whether the character before the current position is part of a word,
after scanning `xs` starting from state `b`. -/
def endW : Bool → List Char → Bool
  | b, [] => b
  | _, c :: rest => endW (!isPyWs c) rest

theorem cwAux_append (b : Bool) : ∀ (xs ys : List Char),
    cwAux b (xs ++ ys) = cwAux b xs + cwAux (endW b xs) ys
  | [], ys => by simp [cwAux, endW]
  | x :: xs, ys => by
    cases hx : isPyWs x with
    | true =>
      simp only [List.cons_append, cwAux, endW, hx, if_true, Bool.not_true]
      exact cwAux_append false xs ys
    | false =>
      simp only [List.cons_append, cwAux, endW, hx, Bool.false_eq_true, if_false,
        Bool.not_false]
      have hrec := cwAux_append true xs ys
      simp only [List.append_eq] at hrec ⊢
      omega

theorem cwAux_true_le (l : List Char) : cwAux true l ≤ cwAux false l := by
  cases l with
  | nil => exact Nat.le_refl 0
  | cons c rest => cases hc : isPyWs c <;> simp [cwAux, hc]

theorem cwAux_false_le (l : List Char) : cwAux false l ≤ cwAux true l + 1 := by
  cases l with
  | nil => exact Nat.zero_le 1
  | cons c rest => cases hc : isPyWs c <;> simp [cwAux, hc] <;> omega

theorem endW_pos : ∀ (xs : List Char), endW false xs = true → 1 ≤ cwAux false xs
  | [], h => by cases h
  | x :: xs, h => by
    cases hx : isPyWs x with
    | true =>
      simp only [endW, hx, Bool.not_true] at h
      simp only [cwAux, hx, if_true]
      exact endW_pos xs h
    | false =>
      simp only [cwAux, hx, Bool.false_eq_true, if_false]
      omega

theorem countWords_take (n : Nat) (l : List Char) :
    countWords (l.take n) ≤ countWords l := by
  unfold countWords
  conv_rhs => rw [← List.take_append_drop n l]
  rw [cwAux_append]
  exact Nat.le_add_right _ _

theorem countWords_drop (n : Nat) (l : List Char) :
    countWords (l.drop n) ≤ countWords l := by
  unfold countWords
  conv_rhs => rw [← List.take_append_drop n l]
  rw [cwAux_append]
  cases hs : endW false (l.take n) with
  | false => exact Nat.le_add_left _ _
  | true =>
    have h1 := endW_pos (l.take n) hs
    have h2 := cwAux_false_le (l.drop n)
    omega

theorem chunk_countWords_le {ch text : List Char} (h : ch ∈ gsChunks text) :
    countWords ch ≤ countWords text := by
  unfold gsChunks at h
  rcases List.mem_map.mp h with ⟨i, _, rfl⟩
  exact (countWords_take 1024 (text.drop i)).trans (countWords_drop i text)

theorem filter_eq_nil_of_none {p : List Char → Bool} :
    ∀ {ls : List (List Char)}, (∀ x ∈ ls, p x = false) → ls.filter p = []
  | [], _ => rfl
  | x :: ls, h => by
    rw [List.filter_cons, h x (List.mem_cons_self x ls)]
    simp only [Bool.false_eq_true, if_false]
    exact filter_eq_nil_of_none (fun y hy => h y (List.mem_cons_of_mem x hy))

theorem generate_summary_short (model : List Char → List Char) {text : List Char}
    (h : countWords text < 50) : generate_summary model text = [] := by
  unfold generate_summary
  have hall : ∀ ch ∈ gsChunks text,
      (fun chunk => decide (50 ≤ countWords chunk)) ch = false := by
    intro ch hch
    have hle := chunk_countWords_le hch
    simp only [decide_eq_false_iff_not]
    omega
  rw [filter_eq_nil_of_none hall]
  rfl

/-- A UTF-8 continuation byte `0x80..0xBF`. -/
def isCont (b : Nat) : Bool := 0x80 ≤ b && b ≤ 0xBF

/-- Strict UTF-8 decoding as performed by Python `bytes.decode("utf-8")`:
rejects truncated sequences, stray continuation or invalid lead bytes,
overlong encodings, surrogates and code points above `0x10FFFF`; returns
`none` exactly when Python raises `UnicodeDecodeError`. -/
def utf8Decode : List Nat → Option (List Char)
  | [] => some []
  | b :: rest =>
    if b < 0x80 then (utf8Decode rest).map (fun cs => Char.ofNat b :: cs)
    else if 0xC2 ≤ b && b ≤ 0xDF then
      match rest with
      | b1 :: rest1 =>
        if isCont b1 then
          (utf8Decode rest1).map
            (fun cs => Char.ofNat ((b - 0xC0) * 64 + (b1 - 0x80)) :: cs)
        else none
      | [] => none
    else if 0xE0 ≤ b && b ≤ 0xEF then
      match rest with
      | b1 :: b2 :: rest2 =>
        if (if b = 0xE0 then 0xA0 ≤ b1 && b1 ≤ 0xBF
            else if b = 0xED then 0x80 ≤ b1 && b1 ≤ 0x9F
            else isCont b1) && isCont b2 then
          (utf8Decode rest2).map
            (fun cs =>
              Char.ofNat ((b - 0xE0) * 4096 + (b1 - 0x80) * 64 + (b2 - 0x80)) :: cs)
        else none
      | _ => none
    else if 0xF0 ≤ b && b ≤ 0xF4 then
      match rest with
      | b1 :: b2 :: b3 :: rest3 =>
        if (if b = 0xF0 then 0x90 ≤ b1 && b1 ≤ 0xBF
            else if b = 0xF4 then 0x80 ≤ b1 && b1 ≤ 0x8F
            else isCont b1) && isCont b2 && isCont b3 then
          (utf8Decode rest3).map
            (fun cs =>
              Char.ofNat ((b - 0xF0) * 262144 + (b1 - 0x80) * 4096
                + (b2 - 0x80) * 64 + (b3 - 0x80)) :: cs)
        else none
      | _ => none
    else none

/-- The python-docx `Document` object as the repository uses it: its
`paragraphs` attribute holds the paragraph texts. -/
structure DocxDocument where
  paragraphs : List (List Char)

/-- Python attribute lookup on a `DocxDocument`: only `paragraphs` exists;
any other name raises `AttributeError` (modelled as `none`). -/
def docxGetAttr (d : DocxDocument) (attr : String) : Option (List (List Char)) :=
  if attr = "paragraphs" then some d.paragraphs else none

/-- `extract_text_from_txt` of `app/services/extractor.py` lines 19-21
(same in `src/main.py` lines 86-88): `clean_text(file_bytes.decode("utf-8"))`;
a decode failure is the (uncaught) `UnicodeDecodeError`. -/
def extract_text_from_txt (contents : List Nat) : Except String (List Char) :=
  match utf8Decode contents with
  | none => Except.error "UnicodeDecodeError"
  | some s => Except.ok (clean_text s)

/-- `extract_text_from_docx` of `app/services/extractor.py` lines 13-16:
the docx parse (`docx.Document(io.BytesIO(file_bytes))`) is the black box
`docxParse`; the code then reads `doc.paragraph` - an attribute that does
not exist on python-docx documents - and space-joins and cleans what it
returns. -/
def extract_text_from_docx (docxParse : List Nat → Except String DocxDocument)
    (contents : List Nat) : Except String (List Char) :=
  match docxParse contents with
  | Except.error e => Except.error e
  | Except.ok doc =>
    match docxGetAttr doc "paragraph" with
    | none => Except.error "AttributeError"
    | some ps => Except.ok (clean_text (joinSpace ps))

/-- `extract_text_from_docx` of `src/main.py` lines 81-84: identical to the
`app/services/extractor.py` version except that it reads the correct
`paragraphs` attribute. -/
def extract_text_from_docx_main (docxParse : List Nat → Except String DocxDocument)
    (contents : List Nat) : Except String (List Char) :=
  match docxParse contents with
  | Except.error e => Except.error e
  | Except.ok doc =>
    match docxGetAttr doc "paragraphs" with
    | none => Except.error "AttributeError"
    | some ps => Except.ok (clean_text (joinSpace ps))

/-- `extract_text_from_pdf` of `app/services/extractor.py` lines 7-10:
PyPDF2 parsing and the `" ".join(...)` of the per-page texts are the black
box `pdfExtract` (which may fail with a parse error); the code then applies
`clean_text`. -/
def extract_text_from_pdf (pdfExtract : List Nat → Except String (List Char))
    (contents : List Nat) : Except String (List Char) :=
  (pdfExtract contents).map clean_text

/-- Modelled from the spec: `app/config.py` (`settings.ALLOWED_MIME_TYPES`)
is not among the sources; §6 of the spec lists these four accepted content
types, which are also exactly the keys of the `ALLOWED_MIME_TYPES` dict of
`src/main.py` lines 52-57 and `src/FastAPI/main.py` lines 54-59, in
insertion order. -/
def ALLOWED_MIME_TYPES : List String :=
  ["application/pdf", "text/plain", "application/msword",
   "application/vnd.openxmlformats-officedocument.wordprocessingml.document"]

/-- Outcome of one request-handler call: a JSON success response, a raised
`HTTPException status detail`, or an ordinary Python exception escaping the
handler uncaught (which the framework turns into a generic 500). -/
inductive RouteResult where
  | ok (filename : String) (summary : List Char)
  | httpError (status : Nat) (detail : String)
  | uncaught (exn : String)
deriving DecidableEq

/-- The `extractors[file.content_type](contents)` dispatch of
`app/routes/document.py` lines 22-29. -/
def extractFor (pdfExtract : List Nat → Except String (List Char))
    (docxParse : List Nat → Except String DocxDocument)
    (content_type : String) (contents : List Nat) : Except String (List Char) :=
  if content_type = "application/pdf" then extract_text_from_pdf pdfExtract contents
  else if content_type = "text/plain" then extract_text_from_txt contents
  else extract_text_from_docx docxParse contents

/-- `summarize_document` of `app/routes/document.py` lines 15-36 (the
`src/main.py` version, lines 99-120, differs only in the trailing periods
of two detail strings): reject a content type outside the allowed set with
a 400, extract, 400 on empty text, summarize, 400 on empty summary,
otherwise echo the filename with the summary. -/
def summarize_document (model : List Char → List Char)
    (pdfExtract : List Nat → Except String (List Char))
    (docxParse : List Nat → Except String DocxDocument)
    (content_type filename : String) (contents : List Nat) : RouteResult :=
  if content_type ∈ ALLOWED_MIME_TYPES then
    match extractFor pdfExtract docxParse content_type contents with
    | Except.error e => RouteResult.uncaught e
    | Except.ok text =>
      if text = [] then RouteResult.httpError 400 "No text extracted"
      else if generate_summary model text = [] then
        RouteResult.httpError 400 "Could not generate summary"
      else RouteResult.ok filename (generate_summary model text)
  else RouteResult.httpError 400 "Unsupported file type."

/-- C5: a text with fewer than 50 whitespace-delimited words yields the
empty summary; whenever extraction succeeded but the extracted text is
below the 50-word threshold, `/summarize` answers with a 400 client error;
and every success response of `/summarize` carries a non-empty summary. -/
theorem C5_short_text_rejected :
    (∀ (model : List Char → List Char) (text : List Char),
      countWords text < 50 → generate_summary model text = [])
    ∧ (∀ (model : List Char → List Char) pdfExtract docxParse
        (content_type filename : String) (contents : List Nat) (t : List Char),
        extractFor pdfExtract docxParse content_type contents = Except.ok t →
        countWords t < 50 →
        ∃ d, summarize_document model pdfExtract docxParse content_type filename
          contents = RouteResult.httpError 400 d)
    ∧ (∀ (model : List Char → List Char) pdfExtract docxParse
        (content_type filename : String) (contents : List Nat)
        (fname : String) (s : List Char),
        summarize_document model pdfExtract docxParse content_type filename
          contents = RouteResult.ok fname s → s ≠ []) := by
  refine ⟨fun model text h => generate_summary_short model h, ?_, ?_⟩
  · intro model pdfExtract docxParse content_type filename contents t h1 h2
    by_cases hct : content_type ∈ ALLOWED_MIME_TYPES
    · simp only [summarize_document, hct, if_true, h1]
      by_cases ht : t = []
      · exact ⟨"No text extracted", by rw [if_pos ht]⟩
      · refine ⟨"Could not generate summary", ?_⟩
        rw [if_neg ht, if_pos (generate_summary_short model h2)]
    · exact ⟨"Unsupported file type.", by
        simp only [summarize_document, hct, if_false]⟩
  · intro model pdfExtract docxParse content_type filename contents fname s h
    unfold summarize_document at h
    by_cases hct : content_type ∈ ALLOWED_MIME_TYPES
    · rw [if_pos hct] at h
      cases hex : extractFor pdfExtract docxParse content_type contents with
      | error e => rw [hex] at h; exact RouteResult.noConfusion h
      | ok t =>
        simp only [hex] at h
        by_cases ht : t = []
        · rw [if_pos ht] at h; exact RouteResult.noConfusion h
        · rw [if_neg ht] at h
          by_cases hs : generate_summary model t = []
          · rw [if_pos hs] at h; exact RouteResult.noConfusion h
          · rw [if_neg hs] at h
            have h2 : generate_summary model t = s :=
              (RouteResult.ok.injEq _ _ _ _).mp h |>.2
            rw [← h2]
            exact hs
    · rw [if_neg hct] at h
      exact RouteResult.noConfusion h

theorem C5_short_text_rejected_witness :
    ∃ d, summarize_document (fun _ => "S".data) (fun _ => Except.error "PdfReadError")
      (fun _ => Except.error "PackageNotFoundError") "text/plain" "a.txt"
      [104, 105] = RouteResult.httpError 400 d :=
  C5_short_text_rejected.2.1 (fun _ => "S".data) (fun _ => Except.error "PdfReadError")
    (fun _ => Except.error "PackageNotFoundError") "text/plain" "a.txt"
    [104, 105] "hi".data (by rfl) (by decide)

/-- C7 counterexample: a `text/plain` upload whose bytes `[0xFF]` are not
valid UTF-8 makes `summarize_document` end in an uncaught
`UnicodeDecodeError` (the route has no try/except around the decode), not
in a raised `HTTPException` with a descriptive message as the claim
states. -/
theorem C7_invalid_utf8_counterexample :
    summarize_document (fun _ => "S".data) (fun _ => Except.error "PdfReadError")
        (fun _ => Except.error "PackageNotFoundError") "text/plain" "bad.txt"
        [255] = RouteResult.uncaught "UnicodeDecodeError"
    ∧ ∀ status d, summarize_document (fun _ => "S".data)
        (fun _ => Except.error "PdfReadError")
        (fun _ => Except.error "PackageNotFoundError") "text/plain" "bad.txt"
        [255] ≠ RouteResult.httpError status d := by
  refine ⟨by rfl, ?_⟩
  intro status d h
  rw [(by rfl : summarize_document (fun _ => "S".data)
      (fun _ => Except.error "PdfReadError")
      (fun _ => Except.error "PackageNotFoundError") "text/plain" "bad.txt"
      [255] = RouteResult.uncaught "UnicodeDecodeError")] at h
  exact RouteResult.noConfusion h

/-- C7 amended: when a `text/plain` body is not valid UTF-8, the
`UnicodeDecodeError` escapes `summarize_document` uncaught (the framework
then produces a generic 500), instead of being converted into a
client-visible HTTP error with a descriptive message. -/
theorem C7_invalid_utf8_uncaught :
    ∀ (model : List Char → List Char) pdfExtract docxParse
      (filename : String) (contents : List Nat),
      utf8Decode contents = none →
      summarize_document model pdfExtract docxParse "text/plain" filename
        contents = RouteResult.uncaught "UnicodeDecodeError" := by
  intro model pdfExtract docxParse filename contents h
  have hct : ("text/plain" : String) ∈ ALLOWED_MIME_TYPES := by decide
  have hex : extractFor pdfExtract docxParse "text/plain" contents =
      Except.error "UnicodeDecodeError" := by
    unfold extractFor extract_text_from_txt
    rw [if_neg (by decide), if_pos rfl, h]
  simp only [summarize_document, hct, if_true, hex]

theorem C7_invalid_utf8_uncaught_witness :
    summarize_document (fun _ => "S".data) (fun _ => Except.error "PdfReadError")
      (fun _ => Except.error "PackageNotFoundError") "text/plain" "bad.txt"
      [0xC0, 0x80] = RouteResult.uncaught "UnicodeDecodeError" :=
  C7_invalid_utf8_uncaught (fun _ => "S".data) (fun _ => Except.error "PdfReadError")
    (fun _ => Except.error "PackageNotFoundError") "bad.txt" [0xC0, 0x80] (by rfl)

/-- C8: on every input whose docx parse succeeds, the Word-document
extractor of `app/services/extractor.py` fails with `AttributeError`
(it reads the nonexistent `doc.paragraph`), whereas the `src/main.py`
version returns the cleaned space-joined paragraph text as the claim
describes. -/
theorem C8_docx_extractor_attribute_error :
    ∀ (docxParse : List Nat → Except String DocxDocument)
      (contents : List Nat) (d : DocxDocument),
      docxParse contents = Except.ok d →
      extract_text_from_docx docxParse contents = Except.error "AttributeError"
      ∧ extract_text_from_docx_main docxParse contents =
          Except.ok (clean_text (joinSpace d.paragraphs)) := by
  intro docxParse contents d h
  constructor
  · have hattr : docxGetAttr d "paragraph" = none := by
      unfold docxGetAttr
      rw [if_neg (by decide)]
    unfold extract_text_from_docx
    simp only [h, hattr]
  · have hattr : docxGetAttr d "paragraphs" = some d.paragraphs := by
      unfold docxGetAttr
      rw [if_pos rfl]
    unfold extract_text_from_docx_main
    simp only [h, hattr]

theorem C8_docx_extractor_attribute_error_witness :
    extract_text_from_docx (fun _ => Except.ok ⟨["Hello world".data]⟩) [] =
        Except.error "AttributeError"
    ∧ extract_text_from_docx_main (fun _ => Except.ok ⟨["Hello world".data]⟩) [] =
        Except.ok (clean_text (joinSpace ["Hello world".data])) :=
  C8_docx_extractor_attribute_error (fun _ => Except.ok ⟨["Hello world".data]⟩)
    [] ⟨["Hello world".data]⟩ (by rfl)

/-- Python `str.endswith`. -/
def strEndsWith (s suffixStr : String) : Bool := suffixStr.data.isSuffixOf s.data

/-- Environment of one PDF-to-Word request: whether the pdf2docx conversion
step succeeds (rather than raising), and the Cloudinary uploader as a black
box from the uploaded path to a URL (`Except.error` models the uploader
raising).  The fresh `tempfile.mkdtemp` directory name is abstracted as
`"T"`. -/
structure ConvEnv where
  convertOk : Bool
  upload : String → Except String String

/-- Outcome of a conversion call: a returned URL or a raised exception. -/
inductive ConvResult where
  | ok (url : String)
  | exn (e : String)
deriving DecidableEq

/-- Observable trace of one conversion request: its outcome, the paths
passed to the uploader, and the temporary paths still existing when the
handler finishes (normally or by exception). -/
structure ConvTrace where
  result : ConvResult
  uploaded : List String
  leftover : List String
deriving DecidableEq

/-- The cleanup block shared by the variants
(`for path in [pdf_path, docx_path]: if os.path.exists(path): os.remove(path)`
followed by removing the temp dir): remove each path if present. -/
def convCleanup (docxPath : String) (fs : List String) : List String :=
  ((fs.erase "T/input.pdf").erase docxPath).erase "T"

/-- `convert_pdf_to_docx` of `app/services/converter.py` lines 7-29: write
`input.pdf` into the temp dir, convert - into `output.pdf` (sic, line 11) -
upload the converted file, and clean up in a `finally` block, so the
cleanup runs on the success path and when the converter or the uploader
raises. -/
def convert_pdf_to_docx (env : ConvEnv) : ConvTrace :=
  if env.convertOk then
    match env.upload "T/output.pdf" with
    | Except.ok url =>
      { result := ConvResult.ok url
        uploaded := ["T/output.pdf"]
        leftover := convCleanup "T/output.pdf" ["T", "T/input.pdf", "T/output.pdf"] }
    | Except.error e =>
      { result := ConvResult.exn e
        uploaded := ["T/output.pdf"]
        leftover := convCleanup "T/output.pdf" ["T", "T/input.pdf", "T/output.pdf"] }
  else
    { result := ConvResult.exn "ConversionError"
      uploaded := []
      leftover := convCleanup "T/output.pdf" ["T", "T/input.pdf"] }

/-- `convert_pdf_to_word` of `src/main.py` lines 123-152: check the
filename, write and convert (to `output.docx`) inside a fresh temp dir with
no try/finally, raise `HTTPException(500)` on a falsy upload URL before the
`os.remove`/`os.rmdir` lines, and delete the temp files only on the success
path. -/
def convert_pdf_to_word_main (env : ConvEnv) (filename : String) : ConvTrace :=
  if strEndsWith filename ".pdf" then
    if env.convertOk then
      match env.upload "T/output.docx" with
      | Except.error e =>
        { result := ConvResult.exn e
          uploaded := ["T/output.docx"]
          leftover := ["T", "T/input.pdf", "T/output.docx"] }
      | Except.ok url =>
        if url = "" then
          { result := ConvResult.exn "HTTPException 500"
            uploaded := ["T/output.docx"]
            leftover := ["T", "T/input.pdf", "T/output.docx"] }
        else
          { result := ConvResult.ok url
            uploaded := ["T/output.docx"]
            leftover := convCleanup "T/output.docx" ["T", "T/input.pdf", "T/output.docx"] }
    else
      { result := ConvResult.exn "ConversionError"
        uploaded := []
        leftover := ["T", "T/input.pdf"] }
  else
    { result := ConvResult.exn "HTTPException 400", uploaded := [], leftover := [] }

/-- C6: the `app/services/converter.py` conversion flow (try/finally)
deletes the temp directory and files on every exit path, but the
`src/main.py` `convert_pdf_to_word` route leaks them whenever the upload
yields no URL (shown here) or the conversion raises: its cleanup calls sit
on the success path only, after the `HTTPException(500)` raise. -/
theorem C6_temp_cleanup :
    (∀ env : ConvEnv, (convert_pdf_to_docx env).leftover = [])
    ∧ (convert_pdf_to_word_main ⟨true, fun _ => Except.ok ""⟩ "doc.pdf").leftover
        = ["T", "T/input.pdf", "T/output.docx"]
    ∧ (convert_pdf_to_word_main ⟨false, fun _ => Except.ok "u"⟩ "doc.pdf").leftover
        = ["T", "T/input.pdf"] := by
  refine ⟨?_, by decide, by decide⟩
  intro env
  unfold convert_pdf_to_docx
  by_cases hc : env.convertOk = true
  · rw [if_pos hc]
    cases henv : env.upload "T/output.pdf" with
    | ok url => rfl
    | error e => rfl
  · rw [if_neg hc]
    rfl

/-- C10: when the conversion step succeeds, the `app/services/converter.py`
flow uploads `T/output.pdf` - the converter writes its Word output to a
path ending in `.pdf`, not `.docx` - while the `src/main.py` route uploads
`T/output.docx` as the claim describes; in both flows the uploaded file is
exactly the converter's output path. -/
theorem C10_output_extension :
    ∀ env : ConvEnv, env.convertOk = true →
      (convert_pdf_to_docx env).uploaded = ["T/output.pdf"]
      ∧ strEndsWith "T/output.pdf" ".docx" = false
      ∧ (convert_pdf_to_word_main env "file.pdf").uploaded = ["T/output.docx"]
      ∧ strEndsWith "T/output.docx" ".docx" = true := by
  intro env h
  refine ⟨?_, by decide, ?_, by decide⟩
  · unfold convert_pdf_to_docx
    rw [if_pos h]
    cases henv : env.upload "T/output.pdf" with
    | ok url => rfl
    | error e => rfl
  · unfold convert_pdf_to_word_main
    rw [if_pos (by decide : strEndsWith "file.pdf" ".pdf" = true), if_pos h]
    cases henv : env.upload "T/output.docx" with
    | error e => rfl
    | ok url =>
      by_cases hu : url = ""
      · simp [hu]
      · simp [hu]

theorem C10_output_extension_witness :
    (convert_pdf_to_docx ⟨true, fun _ => Except.ok "u"⟩).uploaded = ["T/output.pdf"]
    ∧ strEndsWith "T/output.pdf" ".docx" = false
    ∧ (convert_pdf_to_word_main ⟨true, fun _ => Except.ok "u"⟩ "file.pdf").uploaded
        = ["T/output.docx"]
    ∧ strEndsWith "T/output.docx" ".docx" = true :=
  C10_output_extension ⟨true, fun _ => Except.ok "u"⟩ rfl

/-- Naive substring test: `pat` occurs contiguously in the second list. -/
def containsSub (pat : List Char) : List Char → Bool
  | [] => pat.isEmpty
  | c :: rest => pat.isPrefixOf (c :: rest) || containsSub pat rest

/-- Python regex `\w` restricted to ASCII: letters, digits, underscore. -/
def isWordChar (c : Char) : Bool := c.isAlpha || c.isDigit || c == '_'

/-- `re.sub(r'([.,!?])(\w)', r'\1 \2', text)` (`src/FastAPI/main.py` line
81): insert a space between a punctuation character and an immediately
following word character. -/
def insSpacePunct : List Char → List Char
  | [] => []
  | [c] => [c]
  | a :: b :: rest =>
    if isPunct a && isWordChar b then a :: ' ' :: insSpacePunct (b :: rest)
    else a :: insSpacePunct (b :: rest)

/-- `clean_text` of `src/FastAPI/main.py` lines 77-82: whitespace collapse,
whitespace-before-punctuation removal, the space-insertion rule, then a
final `strip()`. -/
def fa_clean_text (l : List Char) : List Char :=
  pyStrip (insSpacePunct (subWsPunct (collapseWs l)))

/-- `extract_text_from_txt` of `src/FastAPI/main.py` lines 104-107. -/
def fa_extract_text_from_txt (contents : List Nat) : Except String (List Char) :=
  match utf8Decode contents with
  | none => Except.error "UnicodeDecodeError"
  | some s => Except.ok (fa_clean_text s)

/-- `extract_text_from_pdf` of `src/FastAPI/main.py` lines 84-92: PyPDF2
parsing and per-page extraction are the black box `pdfPages`; each
non-empty page text is cleaned and appended with a trailing space, and the
accumulated text is cleaned once more. -/
def fa_extract_text_from_pdf (pdfPages : List Nat → Except String (List (List Char)))
    (contents : List Nat) : Except String (List Char) :=
  (pdfPages contents).map (fun pages =>
    fa_clean_text (pages.foldl
      (fun acc pt => if pt = [] then acc else acc ++ fa_clean_text pt ++ [' ']) []))

/-- `extract_text_from_docx` of `src/FastAPI/main.py` lines 94-101: reads
the correct `paragraphs` attribute, joins with trailing spaces, cleans. -/
def fa_extract_text_from_docx (docxParse : List Nat → Except String DocxDocument)
    (contents : List Nat) : Except String (List Char) :=
  match docxParse contents with
  | Except.error e => Except.error e
  | Except.ok doc =>
    match docxGetAttr doc "paragraphs" with
    | none => Except.error "AttributeError"
    | some ps =>
      Except.ok (fa_clean_text (ps.foldl (fun acc p => acc ++ p ++ [' ']) []))

/-- `generate_summary` of `src/FastAPI/main.py` lines 109-119: the same
1024-character chunking and 50-word threshold, written as a loop that
appends each chunk summary to a list before joining. -/
def fa_generate_summary (model : List Char → List Char) (text : List Char) :
    List Char :=
  joinSpace ((gsChunks text).foldl
    (fun acc chunk => if 50 ≤ countWords chunk then acc ++ [model chunk] else acc) [])

/-- The rejection detail of `src/FastAPI/main.py` lines 125-128:
`f"Unsupported file type. Allowed types: {', '.join(ALLOWED_MIME_TYPES.keys())}"`. -/
def FASTAPI_UNSUPPORTED_DETAIL : String :=
  "Unsupported file type. Allowed types: " ++ String.intercalate ", " ALLOWED_MIME_TYPES

/-- `summarize_document` of `src/FastAPI/main.py` lines 121-152. -/
def fa_summarize_document (model : List Char → List Char)
    (pdfPages : List Nat → Except String (List (List Char)))
    (docxParse : List Nat → Except String DocxDocument)
    (content_type filename : String) (contents : List Nat) : RouteResult :=
  if content_type ∈ ALLOWED_MIME_TYPES then
    match (if content_type = "application/pdf" then
             fa_extract_text_from_pdf pdfPages contents
           else if content_type = "application/msword"
               ∨ content_type =
                 "application/vnd.openxmlformats-officedocument.wordprocessingml.document" then
             fa_extract_text_from_docx docxParse contents
           else fa_extract_text_from_txt contents) with
    | Except.error e => RouteResult.uncaught e
    | Except.ok text =>
      if text = [] then
        RouteResult.httpError 400 "No text could be extracted from the document"
      else if fa_generate_summary model text = [] then
        RouteResult.httpError 400 "Could not generate summary from the extracted text"
      else RouteResult.ok filename (fa_generate_summary model text)
  else RouteResult.httpError 400 FASTAPI_UNSUPPORTED_DETAIL

/-- C9 counterexample: `app/routes/document.py` rejects the disallowed
content type `image/png` with the fixed detail string
`"Unsupported file type."`, which does not contain `application/pdf` (nor
any accepted type), so the rejection message of this cited route does not
list the accepted content types. -/
theorem C9_message_counterexample :
    summarize_document (fun _ => "S".data) (fun _ => Except.error "PdfReadError")
        (fun _ => Except.error "PackageNotFoundError") "image/png" "x.png" [] =
      RouteResult.httpError 400 "Unsupported file type."
    ∧ containsSub "application/pdf".data "Unsupported file type.".data = false := by
  exact ⟨by rfl, by decide⟩

/-- C9 amended: every disallowed content type is rejected with a 400
client error by both summarize routes; the `src/FastAPI/main.py` variant's
message lists all four accepted content types, while the
`app/routes/document.py` variant's message is the fixed string
"Unsupported file type." that lists none of them. -/
theorem C9_reject_unsupported :
    ∀ (model : List Char → List Char) pdfExtract pdfPages docxParse
      (content_type filename : String) (contents : List Nat),
      content_type ∉ ALLOWED_MIME_TYPES →
      summarize_document model pdfExtract docxParse content_type filename contents
          = RouteResult.httpError 400 "Unsupported file type."
      ∧ fa_summarize_document model pdfPages docxParse content_type filename contents
          = RouteResult.httpError 400 FASTAPI_UNSUPPORTED_DETAIL
      ∧ containsSub "application/pdf".data FASTAPI_UNSUPPORTED_DETAIL.data = true
      ∧ containsSub "text/plain".data FASTAPI_UNSUPPORTED_DETAIL.data = true
      ∧ containsSub "application/msword".data FASTAPI_UNSUPPORTED_DETAIL.data = true
      ∧ containsSub
          "application/vnd.openxmlformats-officedocument.wordprocessingml.document".data
          FASTAPI_UNSUPPORTED_DETAIL.data = true
      ∧ containsSub "application/pdf".data "Unsupported file type.".data = false := by
  intro model pdfExtract pdfPages docxParse content_type filename contents hct
  refine ⟨?_, ?_, by decide, by decide, by decide, by decide, by decide⟩
  · unfold summarize_document
    rw [if_neg hct]
  · unfold fa_summarize_document
    rw [if_neg hct]

theorem C9_reject_unsupported_witness :
    summarize_document (fun _ => "S".data) (fun _ => Except.error "PdfReadError")
        (fun _ => Except.error "PackageNotFoundError") "image/png" "x.png" []
        = RouteResult.httpError 400 "Unsupported file type."
    ∧ fa_summarize_document (fun _ => "S".data)
        (fun _ => Except.error "PdfReadError")
        (fun _ => Except.error "PackageNotFoundError") "image/png" "x.png" []
        = RouteResult.httpError 400 FASTAPI_UNSUPPORTED_DETAIL
    ∧ containsSub "application/pdf".data FASTAPI_UNSUPPORTED_DETAIL.data = true
    ∧ containsSub "text/plain".data FASTAPI_UNSUPPORTED_DETAIL.data = true
    ∧ containsSub "application/msword".data FASTAPI_UNSUPPORTED_DETAIL.data = true
    ∧ containsSub
        "application/vnd.openxmlformats-officedocument.wordprocessingml.document".data
        FASTAPI_UNSUPPORTED_DETAIL.data = true
    ∧ containsSub "application/pdf".data "Unsupported file type.".data = false :=
  C9_reject_unsupported (fun _ => "S".data) (fun _ => Except.error "PdfReadError")
    (fun _ => Except.error "PdfReadError")
    (fun _ => Except.error "PackageNotFoundError") "image/png" "x.png" []
    (by decide)
